import Mathlib

/-!
Verification of the diff-driven annotation engine of mcp-git-tools
(src/tools/addComments.ts and src/utils/branchParser.ts).

Strings of the JavaScript source are modelled as lists of characters
(`Str`); JavaScript `Map` objects and the file system are modelled as
association lists; the external collaborators (current branch name,
staged and unstaged diff text, file contents) are supplied through an
explicit environment, and every external call the code performs is
recorded in an event trace.
-/

namespace McpGit

abbrev Str := List Char

/-- Characters of the JavaScript whitespace class: the set matched by
the regular-expression class backslash-s and removed by trim. -/
def isJsWs (c : Char) : Bool :=
  c = ' ' || c = '\t' || c = '\n' || c = '\r' ||
  c = '\x0B' || c = '\x0C' || c = ' ' || c = ' ' ||
  (' ' ≤ c && c ≤ ' ') || c = ' ' || c = ' ' ||
  c = ' ' || c = ' ' || c = '　' || c = '﻿'

/-- JavaScript `s.split("\n")`: splitting on the newline character,
yielding the singleton list of the empty string for empty input. -/
def splitLines : Str → List Str
  | [] => [[]]
  | c :: rest =>
    if c = '\n' then [] :: splitLines rest
    else
      match splitLines rest with
      | [] => [[c]]
      | l :: ls => (c :: l) :: ls

/-- JavaScript `lines.join("\n")`. -/
def joinLines : List Str → Str
  | [] => []
  | [l] => l
  | l :: ls => l ++ '\n' :: joinLines ls

/-- Lookup in an association list (JavaScript `Map.get` /
`fs` path lookup). -/
def assocGet {α : Type} (m : List (Str × α)) (k : Str) : Option α :=
  match m with
  | [] => none
  | (k2, v) :: rest => if k2 = k then some v else assocGet rest k

/-- Update in an association list: JavaScript `Map.set` keeps the
position of an existing key and appends a new key at the end. -/
def assocSet {α : Type} (m : List (Str × α)) (k : Str) (v : α) : List (Str × α) :=
  match m with
  | [] => [(k, v)]
  | (k2, v2) :: rest =>
    if k2 = k then (k2, v) :: rest else (k2, v2) :: assocSet rest k v

/-- Boolean test that `p` is a prefix of `s` (JavaScript
`s.startsWith(p)`). -/
def strStartsWith (s p : Str) : Bool := List.isPrefixOf p s

/-- The maximal leading run of decimal digits and the remainder. -/
def takeDigits (cs : Str) : Str × Str :=
  (cs.takeWhile Char.isDigit, cs.dropWhile Char.isDigit)

/-- Decimal value of a digit string (JavaScript `parseInt(s, 10)` on a
string of digits). -/
def digitsToNat (ds : Str) : Nat :=
  ds.foldl (fun n c => n * 10 + (c.toNat - 48)) 0

/-- Match of the hunk-header pattern at the start of `cs`: the pattern
is at-at space minus digits optional-comma-digits space plus
CAPTURED-digits optional-comma-digits space at-at, from
`line.match(...)` in `parseDiff`; returns the captured new-start. -/
def hunkMatchAt (cs : Str) : Option Nat :=
  match cs with
  | '@' :: '@' :: ' ' :: '-' :: rest =>
    let d1 := takeDigits rest
    if d1.1 = [] then none
    else
      let r2 :=
        match d1.2 with
        | ',' :: r => (takeDigits r).2
        | other => other
      match r2 with
      | ' ' :: '+' :: r3 =>
        let d2 := takeDigits r3
        if d2.1 = [] then none
        else
          let r5 :=
            match d2.2 with
            | ',' :: r => (takeDigits r).2
            | other => other
          match r5 with
          | ' ' :: '@' :: '@' :: _ => some (digitsToNat d2.1)
          | _ => none
      | _ => none
  | _ => none

/-- First (leftmost) match of the hunk-header pattern anywhere in the
line, as JavaScript `String.match` finds it. -/
def hunkNewStart : Str → Option Nat
  | [] => none
  | c :: rest =>
    match hunkMatchAt (c :: rest) with
    | some n => some n
    | none => hunkNewStart rest

abbrev FileLineMap := List (Str × List Nat)

/-- State threaded through the line scan of `parseDiff`: the file map,
the current file and the current line cursor. -/
structure ParseState where
  fileChanges : FileLineMap
  currentFile : Option Str
  currentLineNumber : Nat
deriving Repr, DecidableEq

/-- One iteration of the `for` loop of `parseDiff`
(src/tools/addComments.ts lines 44 to 70). The JavaScript guard
`currentFile && ...` on the two hunk-body branches is falsy both for
null and for the empty string (reachable from a bare `+++ b/` header,
whose `substring(6)` is empty), so both branches additionally require
a nonempty current file. -/
def parseDiffStep (st : ParseState) (line : Str) : ParseState :=
  if strStartsWith line ("+++ b/".data) then
    let f := line.drop 6
    { st with currentFile := some f, fileChanges := assocSet st.fileChanges f [] }
  else if strStartsWith line ("@@".data) then
    match hunkNewStart line with
    | some n => { st with currentLineNumber := n }
    | none => st
  else
    match st.currentFile with
    | some f =>
      if !f.isEmpty && strStartsWith line ['+'] && !strStartsWith line ("+++".data) then
        let nums := (assocGet st.fileChanges f).getD []
        { st with
            fileChanges := assocSet st.fileChanges f (nums ++ [st.currentLineNumber]),
            currentLineNumber := st.currentLineNumber + 1 }
      else if !f.isEmpty && !strStartsWith line ['-'] then
        { st with currentLineNumber := st.currentLineNumber + 1 }
      else st
    | none => st

/-- The diff locator `parseDiff` (src/tools/addComments.ts lines 37 to
73): scan the diff line by line from the empty map, no current file and
cursor 0, and return the file map. -/
def parseDiff (diff : Str) : FileLineMap :=
  ((splitLines diff).foldl parseDiffStep ⟨[], none, 0⟩).fileChanges

/-- Result record of `extractBranchCode` (branchParser.ts). -/
structure BranchCodeResult where
  branchCode : Option Str
  isValid : Bool
  branchName : Str
  error : Option Str
deriving Repr, DecidableEq

/-- Uppercase latin letter test, the character class A to Z. -/
def isUpperAZ (c : Char) : Bool := 'A' ≤ c && c ≤ 'Z'

/-- Match of the branch-code pattern F L Y uppercase hyphen
digit digit digit at the start of `cs`; returns the eight matched
characters. -/
def branchCodeAt (cs : Str) : Option Str :=
  match cs with
  | 'F' :: 'L' :: 'Y' :: u :: '-' :: d1 :: d2 :: d3 :: _ =>
    if isUpperAZ u && d1.isDigit && d2.isDigit && d3.isDigit then
      some ['F', 'L', 'Y', u, '-', d1, d2, d3]
    else none
  | _ => none

/-- Leftmost match of the branch-code pattern anywhere in the string,
as `branchName.match(BRANCH_CODE_REGEX)` finds it. -/
def findBranchCode : Str → Option Str
  | [] => none
  | c :: rest =>
    match branchCodeAt (c :: rest) with
    | some r => some r
    | none => findBranchCode rest

/-- The function `extractBranchCode` of branchParser.ts: empty or
whitespace-only branch names fail, otherwise the first substring
matching the branch-code pattern is extracted. -/
def extractBranchCode (branchName : Str) : BranchCodeResult :=
  if branchName.all isJsWs then
    ⟨none, false, branchName, some ("Branch name is empty".data)⟩
  else
    match findBranchCode branchName with
    | none =>
      ⟨none, false, branchName,
       some ("No valid branch code found. Expected format: FLY[A-Z]-[0-9]\x7b3\x7d".data)⟩
    | some code => ⟨some code, true, branchName, none⟩

/-- The function `formatComment` of branchParser.ts: slash slash space,
the branch code, colon space, the comment. -/
def formatComment (branchCode comment : Str) : Str :=
  ("// ".data) ++ branchCode ++ (": ".data) ++ comment

/-- Match, at the start of `cs`, of the duplicate-detection pattern of
`hasExistingComment`: two slashes, any run of whitespace, the branch
code, a colon. The source interpolates the branch code into a regular
expression verbatim; this model treats it as a literal string, which
coincides with the regular-expression semantics whenever the code
contains no regex metacharacters - true of every branch code the
program produces, since they match the branch-code pattern. -/
def tagColonAfterWs (cs tag : Str) : Bool :=
  List.isPrefixOf (tag ++ [':']) cs ||
  (match cs with
   | [] => false
   | c :: rest => isJsWs c && tagColonAfterWs rest tag)

/-- Match of the duplicate-detection pattern exactly at the start of
the given characters: two slashes, whitespace, tag, colon. -/
def commentAt (cs tag : Str) : Bool :=
  match cs with
  | '/' :: '/' :: rest => tagColonAfterWs rest tag
  | _ => false

/-- The function `hasExistingComment` of branchParser.ts: the
duplicate-detection pattern is searched at every position of the line,
as `RegExp.test` does. -/
def hasExistingComment (line tag : Str) : Bool :=
  commentAt line tag ||
  (match line with
   | [] => false
   | _ :: rest => hasExistingComment rest tag)

/-- Outcome of one in-memory annotation: the resulting content and
whether the insertion was applied. -/
structure AnnotateOutcome where
  content : Str
  applied : Bool
deriving Repr, DecidableEq

/-- The pure core of `addCommentToFile` (src/tools/addComments.ts lines
85 to 111): split into lines, validate the 1-based line number, skip a
duplicate, compute the indentation of the target line, splice the
formatted comment in at index lineNumber - 1 and rejoin. -/
def annotateContent (content : Str) (lineNumber : Nat) (comment branchCode : Str) :
    AnnotateOutcome :=
  let lines := splitLines content
  if lineNumber < 1 ∨ lineNumber > lines.length then ⟨content, false⟩
  else
    let targetIndex := lineNumber - 1
    let targetLine := lines.getD targetIndex []
    if hasExistingComment targetLine branchCode then ⟨content, false⟩
    else
      let indent := targetLine.takeWhile isJsWs
      let formatted := indent ++ formatComment branchCode comment
      ⟨joinLines (lines.take targetIndex ++ formatted :: lines.drop targetIndex), true⟩

/-- The file system collaborator: the current content per path, plus
the set of paths whose write raises (modelling `fs.writeFile`
failures). `readFile` raises exactly on the paths not present. -/
structure FS where
  files : List (Str × Str)
  failWrites : List Str
deriving Repr, DecidableEq

/-- External calls performed by the tool, recorded in order. -/
inductive GitEvent where
  | currentBranch
  | stagedDiff
  | unstagedDiff
  | fileRead (path : Str)
  | fileWrite (path : Str)
deriving Repr, DecidableEq

/-- Result of one `addCommentToFile` call: the file system afterwards,
the external calls performed, and the boolean the function returns. -/
structure FileResult where
  fs : FS
  events : List GitEvent
  ok : Bool
deriving Repr, DecidableEq

/-- The function `addCommentToFile` (src/tools/addComments.ts lines 78
to 116): read the file (a failed read is caught and yields false), run
the in-memory annotation, and on success write the new content back (a
failed write is caught and yields false). -/
def addCommentToFile (fs : FS) (filePath : Str) (lineNumber : Nat)
    (comment branchCode : Str) : FileResult :=
  match assocGet fs.files filePath with
  | none => ⟨fs, [GitEvent.fileRead filePath], false⟩
  | some content =>
    let r := annotateContent content lineNumber comment branchCode
    if r.applied then
      if fs.failWrites.contains filePath then
        ⟨fs, [GitEvent.fileRead filePath, GitEvent.fileWrite filePath], false⟩
      else
        ⟨{ fs with files := assocSet fs.files filePath r.content },
         [GitEvent.fileRead filePath, GitEvent.fileWrite filePath], true⟩
    else ⟨fs, [GitEvent.fileRead filePath], false⟩

/-- Accumulated result of the batch loop of `addCommentsToDiff`. -/
structure BatchResult where
  fs : FS
  events : List GitEvent
  modified : List Str
deriving Repr, DecidableEq

/-- The `for` loop of `addCommentsToDiff` (src/tools/addComments.ts
lines 129 to 142), rendered as structural recursion over the map
entries: each entry with a nonempty line list is annotated at its first
recorded line, and the file is appended to the modified list exactly
when the per-file call returned true. -/
def processEntries (fs : FS) (comment branchCode : Str) : FileLineMap → BatchResult
  | [] => ⟨fs, [], []⟩
  | (p, lns) :: rest =>
    match lns with
    | [] => processEntries fs comment branchCode rest
    | n :: _ =>
      let r := addCommentToFile fs p n comment branchCode
      let acc := processEntries r.fs comment branchCode rest
      ⟨acc.fs, r.events ++ acc.events, (if r.ok then [p] else []) ++ acc.modified⟩

/-- The function `addCommentsToDiff` (src/tools/addComments.ts lines
121 to 145): parse the diff and run the batch loop. -/
def addCommentsToDiff (fs : FS) (diff comment branchCode : Str) : BatchResult :=
  processEntries fs comment branchCode (parseDiff diff)

/-- Diff source selector of the tool input. -/
inductive DiffSource where
  | staged
  | unstaged
  | file
deriving Repr, DecidableEq

/-- The template interpolation of the `source` value into messages. -/
def sourceName : DiffSource → Str
  | DiffSource.staged => "staged".data
  | DiffSource.unstaged => "unstaged".data
  | DiffSource.file => "file".data

/-- The interface `AddCommentsInput`; absent optional fields are
`none`. -/
structure AddCommentsInput where
  comment : Str
  source : Option DiffSource
  filePath : Option Str
  lineNumber : Option Nat
deriving Repr, DecidableEq

/-- The interface `AddCommentsResult`; absent optional fields are
`none`. -/
structure AddCommentsResult where
  success : Bool
  message : Str
  branchCode : Option Str
  filesModified : Option (List Str)
  error : Option Str
deriving Repr, DecidableEq

/-- The external collaborators of `addComments`: the current branch
name, the staged and unstaged diff texts, and the file system. -/
structure Env where
  branchName : Str
  stagedDiffText : Str
  unstagedDiffText : Str
  fs : FS
deriving Repr, DecidableEq

/-- Full outcome of one `addComments` call: the structured result, the
file system afterwards and the external calls performed in order. -/
structure CallResult where
  result : AddCommentsResult
  fs : FS
  events : List GitEvent
deriving Repr, DecidableEq

/-- Decimal rendering of a number, for the interpolated messages. -/
def natDigits (n : Nat) : Str := Nat.toDigits 10 n

/-- The entry point `addComments` (src/tools/addComments.ts lines 150
to 231): extract the branch code from the current branch (failing
early when invalid), handle the file-targeted branch when `source` is
file and `filePath` is truthy (requiring a truthy `lineNumber`), and
otherwise fetch the staged or unstaged diff, short-circuit when it is
blank, and run the batch. -/
def addComments (env : Env) (input : AddCommentsInput) : CallResult :=
  let branchResult := extractBranchCode env.branchName
  let codeOk := branchResult.isValid &&
    (match branchResult.branchCode with
     | some c => !c.isEmpty
     | none => false)
  if codeOk then
    let branchCode := (branchResult.branchCode).getD []
    let source := input.source.getD DiffSource.staged
    let filePathTruthy :=
      match input.filePath with
      | some p => !p.isEmpty
      | none => false
    if source = DiffSource.file ∧ filePathTruthy = true then
      let p := (input.filePath).getD []
      if input.lineNumber.getD 0 = 0 then
        ⟨⟨false, "Line number required when specifying a file".data, none, none,
          some ("Missing lineNumber parameter".data)⟩,
         env.fs, [GitEvent.currentBranch]⟩
      else
        let n := input.lineNumber.getD 0
        let r := addCommentToFile env.fs p n input.comment branchCode
        ⟨⟨r.ok,
          (if r.ok then
            ("Comment added to ".data) ++ p ++ (" at line ".data) ++ natDigits n
           else
            "Failed to add comment (may already exist or invalid line number)".data),
          some branchCode, some (if r.ok then [p] else []), none⟩,
         r.fs, GitEvent.currentBranch :: r.events⟩
    else
      let diffText :=
        if source = DiffSource.staged then env.stagedDiffText else env.unstagedDiffText
      let diffEvent :=
        if source = DiffSource.staged then GitEvent.stagedDiff else GitEvent.unstagedDiff
      if diffText.all isJsWs then
        ⟨⟨false, ("No ".data) ++ sourceName source ++ (" changes found".data),
          some branchCode, none, none⟩,
         env.fs, [GitEvent.currentBranch, diffEvent]⟩
      else
        let b := processEntries env.fs input.comment branchCode (parseDiff diffText)
        ⟨⟨!b.modified.isEmpty,
          (if !b.modified.isEmpty then
            ("Comments added to ".data) ++ natDigits b.modified.length ++ (" file(s)".data)
           else
            "No comments were added (may already exist or no valid lines found)".data),
          some branchCode, some b.modified, none⟩,
         b.fs, GitEvent.currentBranch :: diffEvent :: b.events⟩
  else
    ⟨⟨false, "Failed to extract branch code".data, none, none, branchResult.error⟩,
     env.fs, [GitEvent.currentBranch]⟩

/-- Characters the specification allows in a tag: alphanumeric or
hyphen. -/
def isTagChar (c : Char) : Bool :=
  ('A' ≤ c && c ≤ 'Z') || ('a' ≤ c && c ≤ 'z') || c.isDigit || c = '-'

/-- Strict increase of a number sequence, pairwise. -/
def strictIncr : List Nat → Bool
  | a :: b :: rest => a < b && strictIncr (b :: rest)
  | _ => true

/-- The paths of the file-header lines of a diff, in order of
appearance. -/
def headerPathsOf (diff : Str) : List Str :=
  (splitLines diff).filterMap
    (fun l => if strStartsWith l ("+++ b/".data) then some (l.drop 6) else none)

/-- First-occurrence deduplication: keep each path at the position of
its first appearance. -/
def dedupFirst (hs : List Str) : List Str :=
  hs.foldl (fun ks h => if h ∈ ks then ks else ks ++ [h]) []

/-- The branch-code shape: exactly the eight characters F L Y,
an uppercase letter, a hyphen and three digits. -/
def matchesBranchPattern (code : Str) : Bool :=
  match code with
  | ['F', 'L', 'Y', u, '-', d1, d2, d3] =>
    isUpperAZ u && d1.isDigit && d2.isDigit && d3.isDigit
  | _ => false

/-- The content produced by a successful insertion, written out as the
splice the source performs. -/
def insertedContent (content : Str) (n : Nat) (comment tag : Str) : Str :=
  joinLines ((splitLines content).take (n - 1) ++
    ((((splitLines content).getD (n - 1) []).takeWhile isJsWs) ++ formatComment tag comment) ::
    (splitLines content).drop (n - 1))

/-- Effect of one scanned line on the key list: a file-header line
inserts its path at first occurrence, every other line leaves the keys
unchanged. -/
def headerKeysStep (ks : List Str) (l : Str) : List Str :=
  if strStartsWith l ("+++ b/".data) = true then
    (if l.drop 6 ∈ ks then ks else ks ++ [l.drop 6])
  else ks

/-- Invariant of the diff scan: the keys are duplicate-free and the
current file, when set, is one of the keys. -/
def goodState (st : ParseState) : Prop :=
  (st.fileChanges.map Prod.fst).Nodup ∧
  ∀ f, st.currentFile = some f → f ∈ st.fileChanges.map Prod.fst

/-- The gate condition of `addComments`: a valid and truthy branch
code. -/
def codeOkOf (env : Env) : Bool :=
  (extractBranchCode env.branchName).isValid &&
    (match (extractBranchCode env.branchName).branchCode with
     | some c => !c.isEmpty
     | none => false)

/-- The truthiness of the input's file path. -/
def filePathTruthyOf (input : AddCommentsInput) : Bool :=
  match input.filePath with
  | some p => !p.isEmpty
  | none => false

/-- The diff text the entry point fetches for a non-file source. -/
def diffTextOf (env : Env) (input : AddCommentsInput) : Str :=
  if input.source.getD DiffSource.staged = DiffSource.staged then
    env.stagedDiffText
  else env.unstagedDiffText

/-- The fetch event matching `diffTextOf`. -/
def diffEventOf (input : AddCommentsInput) : GitEvent :=
  if input.source.getD DiffSource.staged = DiffSource.staged then
    GitEvent.stagedDiff
  else GitEvent.unstagedDiff

/-- The batch result of the diff path of the entry point. -/
def batchOf (env : Env) (input : AddCommentsInput) : BatchResult :=
  processEntries env.fs input.comment
    (((extractBranchCode env.branchName).branchCode).getD [])
    (parseDiff (diffTextOf env input))

/-! ### Lemmas about line splitting and joining -/

theorem splitLines_ne_nil (s : Str) : splitLines s ≠ [] := by
  induction s with
  | nil => simp [splitLines]
  | cons c rest ih =>
    simp only [splitLines]
    split
    · simp
    · cases h : splitLines rest with
      | nil => simp
      | cons l ls => simp

theorem splitLines_append_newline (x y : Str) :
    splitLines (x ++ '\n' :: y) = splitLines x ++ splitLines y := by
  induction x with
  | nil => simp [splitLines]
  | cons c rest ih =>
    by_cases hc : c = '\n'
    · subst hc
      simp only [List.cons_append, splitLines, if_pos, List.append_eq, ih]
    · cases hs : splitLines rest with
      | nil => exact absurd hs (splitLines_ne_nil rest)
      | cons l ls =>
        simp only [List.cons_append, splitLines, List.append_eq, if_neg hc, ih, hs]

theorem splitLines_no_newline (s : Str) (h : '\n' ∉ s) : splitLines s = [s] := by
  induction s with
  | nil => simp [splitLines]
  | cons c rest ih =>
    simp only [List.mem_cons, not_or] at h
    have hc : ¬ c = '\n' := fun he => h.1 he.symm
    simp only [splitLines, if_neg hc, ih h.2]

theorem mem_splitLines_no_newline (s l : Str) (h : l ∈ splitLines s) : '\n' ∉ l := by
  induction s generalizing l with
  | nil =>
    simp [splitLines] at h
    simp [h]
  | cons c rest ih =>
    simp only [splitLines] at h
    by_cases hc : c = '\n'
    · rw [if_pos hc] at h
      simp only [List.mem_cons] at h
      rcases h with h | h
      · simp [h]
      · exact ih l h
    · rw [if_neg hc] at h
      cases hs : splitLines rest with
      | nil => exact absurd hs (splitLines_ne_nil rest)
      | cons l0 ls =>
        rw [hs] at h
        simp only [List.mem_cons] at h
        rcases h with h | h
        · subst h
          intro hmem
          simp only [List.mem_cons] at hmem
          rcases hmem with hmem | hmem
          · exact hc hmem.symm
          · exact (ih l0 (by simp [hs])) hmem
        · exact ih l (by simp [hs, h])

theorem splitLines_prepend_nf (x y : Str) (hx : '\n' ∉ x) (h0 : Str) (t : List Str)
    (hy : splitLines y = h0 :: t) : splitLines (x ++ y) = (x ++ h0) :: t := by
  induction x with
  | nil => simpa using hy
  | cons c rest ih =>
    simp only [List.mem_cons, not_or] at hx
    have hc : ¬ c = '\n' := fun he => hx.1 he.symm
    have := ih hx.2
    simp only [List.cons_append, splitLines, List.append_eq, if_neg hc, this]

theorem joinLines_cons (l : Str) (ls : List Str) (h : ls ≠ []) :
    joinLines (l :: ls) = l ++ '\n' :: joinLines ls := by
  cases ls with
  | nil => exact absurd rfl h
  | cons a as => rfl

theorem splitLines_joinLines_nf (L : List Str) (hne : L ≠ [])
    (h : ∀ l ∈ L, '\n' ∉ l) : splitLines (joinLines L) = L := by
  induction L with
  | nil => exact absurd rfl hne
  | cons a as ih =>
    cases as with
    | nil =>
      simp only [joinLines]
      exact splitLines_no_newline a (h a (by simp))
    | cons b bs =>
      rw [joinLines_cons a (b :: bs) (by simp)]
      rw [splitLines_append_newline]
      rw [splitLines_no_newline a (h a (by simp))]
      rw [ih (by simp) (fun l hl => h l (by simp [hl]))]
      rfl

theorem splitLines_joinLines_mid (A B : List Str) (f : Str)
    (hA : ∀ l ∈ A, '\n' ∉ l) (hB : ∀ l ∈ B, '\n' ∉ l) :
    splitLines (joinLines (A ++ f :: B)) = A ++ splitLines f ++ B := by
  induction A with
  | nil =>
    simp only [List.nil_append]
    cases B with
    | nil => simp [joinLines]
    | cons b bs =>
      rw [joinLines_cons f (b :: bs) (by simp)]
      rw [splitLines_append_newline]
      rw [splitLines_joinLines_nf (b :: bs) (by simp) hB]
  | cons a as ih =>
    rw [List.cons_append, joinLines_cons a (as ++ f :: B) (by simp)]
    rw [splitLines_append_newline]
    rw [splitLines_no_newline a (hA a (by simp))]
    rw [ih (fun l hl => hA l (by simp [hl]))]
    simp

/-! ### Lemmas about association lists -/

theorem assocGet_assocSet_self {α : Type} (m : List (Str × α)) (k : Str) (v : α) :
    assocGet (assocSet m k v) k = some v := by
  induction m with
  | nil => simp [assocGet, assocSet]
  | cons e rest ih =>
    obtain ⟨k2, v2⟩ := e
    by_cases hk : k2 = k
    · simp [assocGet, assocSet, hk]
    · simp [assocGet, assocSet, hk, ih]

theorem assocSet_keys_of_mem {α : Type} (m : List (Str × α)) (k : Str) (v : α)
    (h : k ∈ m.map Prod.fst) :
    (assocSet m k v).map Prod.fst = m.map Prod.fst := by
  induction m with
  | nil => simp at h
  | cons e rest ih =>
    obtain ⟨k2, v2⟩ := e
    by_cases hk : k2 = k
    · simp [assocSet, hk]
    · simp only [List.map_cons, List.mem_cons] at h
      rcases h with h | h
      · exact absurd h.symm hk
      · simp [assocSet, hk, ih h]

theorem assocSet_keys_of_not_mem {α : Type} (m : List (Str × α)) (k : Str) (v : α)
    (h : ¬ k ∈ m.map Prod.fst) :
    (assocSet m k v).map Prod.fst = m.map Prod.fst ++ [k] := by
  induction m with
  | nil => simp [assocSet]
  | cons e rest ih =>
    obtain ⟨k2, v2⟩ := e
    simp only [List.map_cons, List.mem_cons, not_or] at h
    by_cases hk : k2 = k
    · exact absurd hk.symm h.1
    · simp [assocSet, hk, ih h.2]

theorem mem_keys_assocSet {α : Type} (m : List (Str × α)) (k : Str) (v : α) :
    k ∈ (assocSet m k v).map Prod.fst := by
  by_cases h : k ∈ m.map Prod.fst
  · rw [assocSet_keys_of_mem m k v h]; exact h
  · rw [assocSet_keys_of_not_mem m k v h]
    exact List.mem_append.mpr (Or.inr (List.mem_singleton.mpr rfl))

theorem assocSet_nodup_keys {α : Type} (m : List (Str × α)) (k : Str) (v : α)
    (h : (m.map Prod.fst).Nodup) : ((assocSet m k v).map Prod.fst).Nodup := by
  by_cases hm : k ∈ m.map Prod.fst
  · rwa [assocSet_keys_of_mem m k v hm]
  · rw [assocSet_keys_of_not_mem m k v hm]
    refine List.Nodup.append h (List.nodup_singleton k) ?_
    intro a ha hb
    simp only [List.mem_singleton] at hb
    subst hb
    exact hm ha

theorem getD_append_len {α : Type} (A : List α) (y : α) (B : List α) (d : α) :
    (A ++ y :: B).getD A.length d = y := by
  induction A with
  | nil => simp [List.getD]
  | cons a as ih => simpa [List.getD] using ih
/-! ### Lemmas about duplicate detection -/

theorem isPrefixOf_append_self (l t : Str) : List.isPrefixOf l (l ++ t) = true := by
  induction l with
  | nil => simp [List.isPrefixOf]
  | cons c cs ih => simp [List.isPrefixOf, ih]

theorem tagColonAfterWs_exact (tag r : Str) : tagColonAfterWs (tag ++ ':' :: r) tag = true := by
  unfold tagColonAfterWs
  have h : List.isPrefixOf (tag ++ [':']) (tag ++ ':' :: r) = true := by
    have ha : tag ++ ':' :: r = (tag ++ [':']) ++ r := by simp
    rw [ha]
    exact isPrefixOf_append_self (tag ++ [':']) r
  simp [h]

theorem tagColonAfterWs_ws_cons (c : Char) (cs tag : Str) (hc : isJsWs c = true)
    (h : tagColonAfterWs cs tag = true) : tagColonAfterWs (c :: cs) tag = true := by
  unfold tagColonAfterWs
  simp [hc, h]

theorem hasExistingComment_here (cs tag : Str) (h : commentAt cs tag = true) :
    hasExistingComment cs tag = true := by
  unfold hasExistingComment
  simp [h]

theorem hasExistingComment_append_left (x cs tag : Str)
    (h : hasExistingComment cs tag = true) :
    hasExistingComment (x ++ cs) tag = true := by
  induction x with
  | nil => exact h
  | cons c rest ih =>
    unfold hasExistingComment
    simp only [List.cons_append]
    simp [ih]

theorem formatted_has_comment (indent tag r : Str) :
    hasExistingComment (indent ++ '/' :: '/' :: ' ' :: (tag ++ ':' :: r)) tag = true := by
  apply hasExistingComment_append_left
  apply hasExistingComment_here
  have he : commentAt ('/' :: '/' :: ' ' :: (tag ++ ':' :: r)) tag
      = tagColonAfterWs (' ' :: (tag ++ ':' :: r)) tag := rfl
  rw [he]
  exact tagColonAfterWs_ws_cons ' ' _ tag (by decide) (tagColonAfterWs_exact tag r)

/-! ### Lemmas about the single-file annotation -/

theorem splitLines_length_pos (s : Str) : 0 < (splitLines s).length :=
  List.length_pos.mpr (splitLines_ne_nil s)

theorem getD_mem_of_lt {α : Type} (l : List α) (i : Nat) (d : α) (h : i < l.length) :
    l.getD i d ∈ l := by
  induction l generalizing i with
  | nil => simp at h
  | cons a as ih =>
    cases i with
    | zero => simp [List.getD]
    | succ j =>
      simp only [List.length_cons, Nat.succ_lt_succ_iff] at h
      simpa [List.getD] using Or.inr (by simpa [List.getD] using ih j h)

theorem ne_nil_not_isEmpty (l : Str) (h : l ≠ []) : l.isEmpty = false := by
  cases l with
  | nil => exact absurd rfl h
  | cons a as => rfl

theorem annotate_oob (content : Str) (n : Nat) (comment tag : Str)
    (h : n < 1 ∨ n > (splitLines content).length) :
    annotateContent content n comment tag = ⟨content, false⟩ := by
  simp only [annotateContent]
  rw [if_pos h]

theorem annotate_dup (content : Str) (n : Nat) (comment tag : Str)
    (hb : ¬(n < 1 ∨ n > (splitLines content).length))
    (hdup : hasExistingComment ((splitLines content).getD (n - 1) []) tag = true) :
    annotateContent content n comment tag = ⟨content, false⟩ := by
  simp only [annotateContent]
  rw [if_neg hb, if_pos (by simpa using hdup)]

theorem annotate_applies (content : Str) (n : Nat) (comment tag : Str)
    (h1 : 1 ≤ n) (h2 : n ≤ (splitLines content).length)
    (hdup : hasExistingComment ((splitLines content).getD (n - 1) []) tag = false) :
    annotateContent content n comment tag =
      ⟨joinLines ((splitLines content).take (n - 1) ++
        ((((splitLines content).getD (n - 1) []).takeWhile isJsWs) ++
          formatComment tag comment) ::
        (splitLines content).drop (n - 1)), true⟩ := by
  have hb : ¬(n < 1 ∨ n > (splitLines content).length) := by omega
  simp only [annotateContent]
  rw [if_neg hb, if_neg (by rw [hdup]; exact Bool.false_ne_true)]

theorem annotate_applied_inv (content : Str) (n : Nat) (comment tag : Str)
    (h : (annotateContent content n comment tag).applied = true) :
    1 ≤ n ∧ n ≤ (splitLines content).length ∧
    hasExistingComment ((splitLines content).getD (n - 1) []) tag = false := by
  by_cases hb : n < 1 ∨ n > (splitLines content).length
  · rw [annotate_oob content n comment tag hb] at h
    simp at h
  · by_cases hd : hasExistingComment ((splitLines content).getD (n - 1) []) tag = true
    · rw [annotate_dup content n comment tag hb hd] at h
      simp at h
    · exact ⟨by omega, by omega, by simpa using hd⟩

theorem addCommentToFile_read_none (fs : FS) (p : Str) (n : Nat) (c t : Str)
    (h : assocGet fs.files p = none) :
    addCommentToFile fs p n c t = ⟨fs, [GitEvent.fileRead p], false⟩ := by
  unfold addCommentToFile
  rw [h]

theorem addCommentToFile_not_applied (fs : FS) (p : Str) (n : Nat) (c t content : Str)
    (h : assocGet fs.files p = some content)
    (ha : (annotateContent content n c t).applied = false) :
    addCommentToFile fs p n c t = ⟨fs, [GitEvent.fileRead p], false⟩ := by
  unfold addCommentToFile
  rw [h]
  simp [ha]

theorem addCommentToFile_write_fail (fs : FS) (p : Str) (n : Nat) (c t content : Str)
    (h : assocGet fs.files p = some content)
    (ha : (annotateContent content n c t).applied = true)
    (hw : p ∈ fs.failWrites) :
    addCommentToFile fs p n c t =
      ⟨fs, [GitEvent.fileRead p, GitEvent.fileWrite p], false⟩ := by
  unfold addCommentToFile
  rw [h]
  simp [ha, hw]

theorem addCommentToFile_applied (fs : FS) (p : Str) (n : Nat) (c t content : Str)
    (h : assocGet fs.files p = some content)
    (ha : (annotateContent content n c t).applied = true)
    (hw : p ∉ fs.failWrites) :
    addCommentToFile fs p n c t =
      ⟨{ fs with files := assocSet fs.files p (annotateContent content n c t).content },
       [GitEvent.fileRead p, GitEvent.fileWrite p], true⟩ := by
  unfold addCommentToFile
  rw [h]
  simp [ha, hw]

theorem all_tagChar_no_newline (tag : Str) (h : tag.all isTagChar = true) : '\n' ∉ tag := by
  intro hmem
  have hchar := List.all_eq_true.mp h '\n' hmem
  have hfalse : isTagChar '\n' = false := by decide
  rw [hfalse] at hchar
  exact Bool.false_ne_true hchar
theorem getD_append_at {α : Type} (A : List α) (y : α) (B : List α) (d : α) (i : Nat)
    (h : i = A.length) : (A ++ y :: B).getD i d = y := by
  subst h
  exact getD_append_len A y B d

theorem inserted_bounds_dup (content : Str) (n : Nat) (comment tag : Str)
    (h1 : 1 ≤ n) (h2 : n ≤ (splitLines content).length) (htag : '\n' ∉ tag) :
    n ≤ (splitLines (insertedContent content n comment tag)).length ∧
    hasExistingComment
      ((splitLines (insertedContent content n comment tag)).getD (n - 1) []) tag = true := by
  have hkl : n - 1 < (splitLines content).length := by omega
  have htmem : (splitLines content).getD (n - 1) [] ∈ splitLines content :=
    getD_mem_of_lt _ _ _ hkl
  have htnf : '\n' ∉ (splitLines content).getD (n - 1) [] :=
    mem_splitLines_no_newline content _ htmem
  have hinf : '\n' ∉ ((splitLines content).getD (n - 1) []).takeWhile isJsWs :=
    fun hm => htnf ((List.takeWhile_prefix _).subset hm)
  have hA : ∀ l ∈ (splitLines content).take (n - 1), '\n' ∉ l :=
    fun l hl => mem_splitLines_no_newline content l (List.mem_of_mem_take hl)
  have hB : ∀ l ∈ (splitLines content).drop (n - 1), '\n' ∉ l :=
    fun l hl => mem_splitLines_no_newline content l (List.mem_of_mem_drop hl)
  obtain ⟨c0, ct, hc⟩ : ∃ c0 ct, splitLines comment = c0 :: ct := by
    cases hsc : splitLines comment with
    | nil => exact absurd hsc (splitLines_ne_nil comment)
    | cons a b => exact ⟨a, b, rfl⟩
  have hxnf : '\n' ∉ ((((splitLines content).getD (n - 1) []).takeWhile isJsWs) ++
      '/' :: '/' :: ' ' :: (tag ++ [':', ' '])) := by
    intro hm
    rcases List.mem_append.mp hm with hm | hm
    · exact hinf hm
    · simp [htag] at hm
  have hf : (((splitLines content).getD (n - 1) []).takeWhile isJsWs) ++
        formatComment tag comment
      = ((((splitLines content).getD (n - 1) []).takeWhile isJsWs) ++
        '/' :: '/' :: ' ' :: (tag ++ [':', ' '])) ++ comment := by
    simp [formatComment, List.append_assoc]
  have hsf : splitLines ((((splitLines content).getD (n - 1) []).takeWhile isJsWs) ++
        formatComment tag comment)
      = (((((splitLines content).getD (n - 1) []).takeWhile isJsWs) ++
          '/' :: '/' :: ' ' :: (tag ++ [':', ' '])) ++ c0) :: ct := by
    rw [hf]
    exact splitLines_prepend_nf _ comment hxnf c0 ct hc
  have hsplit : splitLines (insertedContent content n comment tag)
      = (splitLines content).take (n - 1) ++
        ((((((splitLines content).getD (n - 1) []).takeWhile isJsWs) ++
          '/' :: '/' :: ' ' :: (tag ++ [':', ' '])) ++ c0) :: ct) ++
        (splitLines content).drop (n - 1) := by
    unfold insertedContent
    rw [splitLines_joinLines_mid _ _ _ hA hB, hsf]
  have hAlen : ((splitLines content).take (n - 1)).length = n - 1 := by
    simp [List.length_take]
    omega
  constructor
  · rw [hsplit]
    simp [List.length_append]
    omega
  · rw [hsplit]
    have hassoc : (splitLines content).take (n - 1) ++
        ((((((splitLines content).getD (n - 1) []).takeWhile isJsWs) ++
          '/' :: '/' :: ' ' :: (tag ++ [':', ' '])) ++ c0) :: ct) ++
        (splitLines content).drop (n - 1)
        = (splitLines content).take (n - 1) ++
          (((((splitLines content).getD (n - 1) []).takeWhile isJsWs) ++
            '/' :: '/' :: ' ' :: (tag ++ [':', ' '])) ++ c0) ::
          (ct ++ (splitLines content).drop (n - 1)) := by
      simp [List.append_assoc]
    rw [hassoc]
    rw [getD_append_at _ _ _ _ _ hAlen.symm]
    have hshape : ((((splitLines content).getD (n - 1) []).takeWhile isJsWs) ++
          '/' :: '/' :: ' ' :: (tag ++ [':', ' '])) ++ c0
        = (((splitLines content).getD (n - 1) []).takeWhile isJsWs) ++
          '/' :: '/' :: ' ' :: (tag ++ ':' :: ' ' :: c0) := by
      simp [List.append_assoc]
    rw [hshape]
    exact formatted_has_comment _ tag (' ' :: c0)

/-- Claim C1. Idempotence of annotation: under a readable file, a
writable path, a valid 1-based line number, a tag of the
specification's tag alphabet (alphanumeric or hyphen) and no
pre-existing tagged comment on the target line, the first
`addCommentToFile` call applies the insertion and reports true, and a
second call with the same file, line, tag and comment against the
resulting state is a no-op: it returns false and leaves the file
system exactly as after the first call. -/
theorem C1_annotation_idempotent (fs : FS) (p content : Str) (n : Nat) (comment tag : Str)
    (hread : assocGet fs.files p = some content)
    (hw : p ∉ fs.failWrites)
    (h1 : 1 ≤ n) (h2 : n ≤ (splitLines content).length)
    (htag : tag.all isTagChar = true)
    (hclean : hasExistingComment ((splitLines content).getD (n - 1) []) tag = false) :
    (addCommentToFile fs p n comment tag).ok = true ∧
    addCommentToFile (addCommentToFile fs p n comment tag).fs p n comment tag =
      ⟨(addCommentToFile fs p n comment tag).fs, [GitEvent.fileRead p], false⟩ := by
  have htagnl : '\n' ∉ tag := all_tagChar_no_newline tag htag
  have ha := annotate_applies content n comment tag h1 h2 hclean
  have happ : (annotateContent content n comment tag).applied = true := by rw [ha]
  have hcontent : (annotateContent content n comment tag).content
      = insertedContent content n comment tag := by
    rw [ha]
    unfold insertedContent
    rfl
  have hr1 := addCommentToFile_applied fs p n comment tag content hread happ hw
  have hbd := inserted_bounds_dup content n comment tag h1 h2 htagnl
  refine ⟨by rw [hr1], ?_⟩
  have hread2 : assocGet (addCommentToFile fs p n comment tag).fs.files p
      = some (insertedContent content n comment tag) := by
    rw [hr1, ← hcontent]
    exact assocGet_assocSet_self fs.files p _
  have hfalse2 : (annotateContent (insertedContent content n comment tag) n comment tag).applied
      = false := by
    rw [annotate_dup _ n comment tag (by omega) hbd.2]
  exact addCommentToFile_not_applied _ p n comment tag _ hread2 hfalse2

/-- Witness for claim C1 at a concrete file, line, tag and comment. -/
theorem C1_annotation_idempotent_witness :
    (addCommentToFile ⟨[(("a.js".data), ("hello".data))], []⟩ ("a.js".data) 1
        ("note".data) ("FLYA-123".data)).ok = true ∧
    addCommentToFile
        (addCommentToFile ⟨[(("a.js".data), ("hello".data))], []⟩ ("a.js".data) 1
          ("note".data) ("FLYA-123".data)).fs ("a.js".data) 1
        ("note".data) ("FLYA-123".data) =
      ⟨(addCommentToFile ⟨[(("a.js".data), ("hello".data))], []⟩ ("a.js".data) 1
          ("note".data) ("FLYA-123".data)).fs,
       [GitEvent.fileRead ("a.js".data)], false⟩ :=
  C1_annotation_idempotent ⟨[(("a.js".data), ("hello".data))], []⟩ ("a.js".data)
    ("hello".data) 1 ("note".data) ("FLYA-123".data)
    (by decide) (by decide) (by decide) (by decide) (by decide) (by decide)
/-- Claim C6, amended. Whenever the insertion applies, the new element
is exactly the target line's leading whitespace run, then the two
slashes, a single space, the tag, a colon and a space, and the comment
text, placed at 0-based index lineNumber - 1 with all pre-existing
lines kept unchanged and in order; the inserted element contains no
newline beyond those embedded in the tag or comment text (in
particular it is a single line whenever tag and comment are
newline-free). -/
theorem C6_inserted_line_exact (content : Str) (n : Nat) (comment tag : Str)
    (h1 : 1 ≤ n) (h2 : n ≤ (splitLines content).length)
    (hdup : hasExistingComment ((splitLines content).getD (n - 1) []) tag = false) :
    annotateContent content n comment tag =
      ⟨joinLines ((splitLines content).take (n - 1) ++
        ((((splitLines content).getD (n - 1) []).takeWhile isJsWs) ++
          '/' :: '/' :: ' ' :: (tag ++ ':' :: ' ' :: comment)) ::
        (splitLines content).drop (n - 1)), true⟩ ∧
    ('\n' ∉ tag → '\n' ∉ comment →
      '\n' ∉ ((((splitLines content).getD (n - 1) []).takeWhile isJsWs) ++
        '/' :: '/' :: ' ' :: (tag ++ ':' :: ' ' :: comment))) := by
  have hkl : n - 1 < (splitLines content).length := by omega
  have htnf : '\n' ∉ (splitLines content).getD (n - 1) [] :=
    mem_splitLines_no_newline content _ (getD_mem_of_lt _ _ _ hkl)
  have hinf : '\n' ∉ ((splitLines content).getD (n - 1) []).takeWhile isJsWs :=
    fun hm => htnf ((List.takeWhile_prefix _).subset hm)
  constructor
  · rw [annotate_applies content n comment tag h1 h2 hdup]
    have hfc : (((splitLines content).getD (n - 1) []).takeWhile isJsWs) ++
          formatComment tag comment
        = (((splitLines content).getD (n - 1) []).takeWhile isJsWs) ++
          '/' :: '/' :: ' ' :: (tag ++ ':' :: ' ' :: comment) := by
      simp [formatComment, List.append_assoc]
    rw [hfc]
  · intro htag hcomment hm
    rcases List.mem_append.mp hm with hm | hm
    · exact hinf hm
    · simp [htag, hcomment] at hm

/-- Witness for claim C6 at a concrete file content, line, tag and
comment. -/
theorem C6_inserted_line_exact_witness :
    annotateContent ("    return x;".data) 1 ("note".data) ("FLYA-123".data) =
      ⟨joinLines ((splitLines ("    return x;".data)).take 0 ++
        ((((splitLines ("    return x;".data)).getD 0 []).takeWhile isJsWs) ++
          '/' :: '/' :: ' ' :: ("FLYA-123".data ++ ':' :: ' ' :: "note".data)) ::
        (splitLines ("    return x;".data)).drop 0), true⟩ ∧
    ('\n' ∉ ("FLYA-123".data) → '\n' ∉ ("note".data) →
      '\n' ∉ ((((splitLines ("    return x;".data)).getD 0 []).takeWhile isJsWs) ++
        '/' :: '/' :: ' ' :: ("FLYA-123".data ++ ':' :: ' ' :: "note".data))) :=
  C6_inserted_line_exact ("    return x;".data) 1 ("note".data) ("FLYA-123".data)
    (by decide) (by decide) (by decide)

/-- Counterexample for claim C6 as stated: with a comment text that
embeds a newline, the insertion still applies, but the inserted
element - the claim's indentation, comment token, space, tag, colon
space and comment text - contains an embedded newline, so it is not
one line, and the rejoined content gains two lines. -/
theorem C6_single_line_cex :
    (annotateContent ("x".data) 1 ("a\nb".data) ("FLYA-123".data)).applied = true ∧
    annotateContent ("x".data) 1 ("a\nb".data) ("FLYA-123".data) =
      ⟨"// FLYA-123: a\nb\nx".data, true⟩ ∧
    '\n' ∈ ((("x".data).takeWhile isJsWs) ++
      '/' :: '/' :: ' ' :: ("FLYA-123".data ++ ':' :: ' ' :: "a\nb".data)) ∧
    (splitLines ("// FLYA-123: a\nb\nx".data)).length = 3 := by
  refine ⟨by decide, by decide, by decide, by decide⟩

/-- Claim C8. Bounds checking: with the file readable, line number 0
and line number lineCount + 1 both yield applied false with the file
system unchanged and no write event, while line numbers 1 and
lineCount yield an applied insertion whenever no duplicate tagged
comment is present at the target line. -/
theorem C8_bounds_checking (fs : FS) (p content comment tag : Str)
    (hread : assocGet fs.files p = some content) :
    (addCommentToFile fs p 0 comment tag = ⟨fs, [GitEvent.fileRead p], false⟩) ∧
    (addCommentToFile fs p ((splitLines content).length + 1) comment tag
        = ⟨fs, [GitEvent.fileRead p], false⟩) ∧
    (hasExistingComment ((splitLines content).getD 0 []) tag = false →
      (annotateContent content 1 comment tag).applied = true) ∧
    (hasExistingComment
        ((splitLines content).getD ((splitLines content).length - 1) []) tag = false →
      (annotateContent content ((splitLines content).length) comment tag).applied = true) := by
  refine ⟨?_, ?_, ?_, ?_⟩
  · exact addCommentToFile_not_applied fs p 0 comment tag content hread
      (by rw [annotate_oob content 0 comment tag (Or.inl (by omega))])
  · exact addCommentToFile_not_applied fs p _ comment tag content hread
      (by rw [annotate_oob content _ comment tag (Or.inr (by omega))])
  · intro hdup
    rw [annotate_applies content 1 comment tag (by omega)
      (splitLines_length_pos content) hdup]
  · intro hdup
    rw [annotate_applies content ((splitLines content).length) comment tag
      (splitLines_length_pos content) (by omega) hdup]

/-- Witness for claim C8 at a concrete two-line file. -/
theorem C8_bounds_checking_witness :
    (addCommentToFile ⟨[(("a.js".data), ("one\ntwo".data))], []⟩ ("a.js".data) 0
        ("note".data) ("FLYA-123".data) =
      ⟨⟨[(("a.js".data), ("one\ntwo".data))], []⟩, [GitEvent.fileRead ("a.js".data)], false⟩) ∧
    (addCommentToFile ⟨[(("a.js".data), ("one\ntwo".data))], []⟩ ("a.js".data)
        ((splitLines ("one\ntwo".data)).length + 1) ("note".data) ("FLYA-123".data) =
      ⟨⟨[(("a.js".data), ("one\ntwo".data))], []⟩, [GitEvent.fileRead ("a.js".data)], false⟩) ∧
    ((annotateContent ("one\ntwo".data) 1 ("note".data) ("FLYA-123".data)).applied = true) ∧
    ((annotateContent ("one\ntwo".data) ((splitLines ("one\ntwo".data)).length)
        ("note".data) ("FLYA-123".data)).applied = true) := by
  have h := C8_bounds_checking ⟨[(("a.js".data), ("one\ntwo".data))], []⟩ ("a.js".data)
    ("one\ntwo".data) ("note".data) ("FLYA-123".data) (by decide)
  exact ⟨h.1, h.2.1, h.2.2.1 (by decide), h.2.2.2 (by decide)⟩

/-- Claim C9. Hard-coded comment token: the formatted comment is
always the literal two-slash token, a space, the tag, colon space and
the comment text, for every tag and comment and independently of the
target path or its extension: whenever an insertion applies, the
written content carries exactly that line shape, and the file-system
update is the same for any path, including non-JavaScript files. -/
theorem C9_hardcoded_comment_token :
    (∀ tag comment : Str, formatComment tag comment
        = '/' :: '/' :: ' ' :: (tag ++ ':' :: ' ' :: comment)) ∧
    (∀ (content : Str) (n : Nat) (comment tag : Str),
      (annotateContent content n comment tag).applied = true →
      (annotateContent content n comment tag).content =
        joinLines ((splitLines content).take (n - 1) ++
          ((((splitLines content).getD (n - 1) []).takeWhile isJsWs) ++
            '/' :: '/' :: ' ' :: (tag ++ ':' :: ' ' :: comment)) ::
          (splitLines content).drop (n - 1))) ∧
    (∀ (fs : FS) (p : Str) (n : Nat) (comment tag content : Str),
      assocGet fs.files p = some content →
      (addCommentToFile fs p n comment tag).ok = true →
      (addCommentToFile fs p n comment tag).fs.files =
        assocSet fs.files p (annotateContent content n comment tag).content) := by
  refine ⟨?_, ?_, ?_⟩
  · intro tag comment
    simp [formatComment, List.append_assoc]
  · intro content n comment tag h
    obtain ⟨h1, h2, hdup⟩ := annotate_applied_inv content n comment tag h
    rw [annotate_applies content n comment tag h1 h2 hdup]
    have hfc : (((splitLines content).getD (n - 1) []).takeWhile isJsWs) ++
          formatComment tag comment
        = (((splitLines content).getD (n - 1) []).takeWhile isJsWs) ++
          '/' :: '/' :: ' ' :: (tag ++ ':' :: ' ' :: comment) := by
      simp [formatComment, List.append_assoc]
    rw [hfc]
  · intro fs p n comment tag content hread hok
    by_cases ha : (annotateContent content n comment tag).applied = true
    · by_cases hw : p ∈ fs.failWrites
      · rw [addCommentToFile_write_fail fs p n comment tag content hread ha hw] at hok
        simp at hok
      · rw [addCommentToFile_applied fs p n comment tag content hread ha hw]
    · rw [addCommentToFile_not_applied fs p n comment tag content hread
        (Bool.not_eq_true _ ▸ ha)] at hok
      simp at hok

/-- Witness for claim C9 at a concrete Python file path. -/
theorem C9_hardcoded_comment_token_witness :
    (formatComment ("FLYA-123".data) ("note".data)
        = '/' :: '/' :: ' ' :: ("FLYA-123".data ++ ':' :: ' ' :: "note".data)) ∧
    ((annotateContent ("x = 1".data) 1 ("note".data) ("FLYA-123".data)).content =
      joinLines ((splitLines ("x = 1".data)).take 0 ++
        ((((splitLines ("x = 1".data)).getD 0 []).takeWhile isJsWs) ++
          '/' :: '/' :: ' ' :: ("FLYA-123".data ++ ':' :: ' ' :: "note".data)) ::
        (splitLines ("x = 1".data)).drop 0)) ∧
    ((addCommentToFile ⟨[(("app.py".data), ("x = 1".data))], []⟩ ("app.py".data) 1
        ("note".data) ("FLYA-123".data)).fs.files =
      assocSet [(("app.py".data), ("x = 1".data))] ("app.py".data)
        (annotateContent ("x = 1".data) 1 ("note".data) ("FLYA-123".data)).content) := by
  refine ⟨C9_hardcoded_comment_token.1 ("FLYA-123".data) ("note".data),
    C9_hardcoded_comment_token.2.1 ("x = 1".data) 1 ("note".data) ("FLYA-123".data)
      (by decide),
    C9_hardcoded_comment_token.2.2 ⟨[(("app.py".data), ("x = 1".data))], []⟩
      ("app.py".data) 1 ("note".data) ("FLYA-123".data) ("x = 1".data)
      (by decide) (by decide)⟩
/-! ### Lemmas about the diff scan -/

theorem startsWith_one (a : Char) (line : Str) (h : strStartsWith line [a] = true) :
    ∃ t, line = a :: t := by
  cases line with
  | nil => simp [strStartsWith, List.isPrefixOf] at h
  | cons c rest =>
    simp [strStartsWith, List.isPrefixOf] at h
    exact ⟨rest, by rw [h]⟩

theorem startsWith_two (a b : Char) (line : Str) (h : strStartsWith line [a, b] = true) :
    ∃ t, line = a :: b :: t := by
  cases line with
  | nil => simp [strStartsWith, List.isPrefixOf] at h
  | cons c rest =>
    cases rest with
    | nil => simp [strStartsWith, List.isPrefixOf] at h
    | cons c2 t =>
      simp [strStartsWith, List.isPrefixOf] at h
      exact ⟨t, by rw [h.1, h.2]⟩

theorem isPrefixOf_append_split (p q l : Str) (h : List.isPrefixOf (p ++ q) l = true) :
    List.isPrefixOf p l = true := by
  induction p generalizing l with
  | nil => simp [List.isPrefixOf]
  | cons c cs ih =>
    cases l with
    | nil => simp [List.isPrefixOf] at h
    | cons d ds =>
      simp only [List.cons_append, List.isPrefixOf, Bool.and_eq_true] at h ⊢
      exact ⟨h.1, ih ds h.2⟩

/-- Counterexample for claim C2 as stated: in this diff an addition
line is scanned right after the second file header and before any hunk
header for that file, and it is nevertheless assigned the stale cursor
value 2 left over from the previous file's hunk, so it does contribute
a line number to that file's sequence. -/
theorem C2_stale_cursor_cex :
    assocGet (parseDiff ("+++ b/a.js\n@@ -1,2 +1,3 @@\n+x\n+++ b/b.js\n+y".data))
        ("b.js".data) = some [2] ∧
    ([2] : List Nat) ≠ [] :=
  ⟨by decide, by decide⟩

/-- Claim C2, amended. A file-header line starts a new current file
and initializes its map entry to the empty sequence but leaves the
line cursor unchanged rather than resetting it to an unset state
(there is no unset state: the cursor starts at 0 and carries over
across file headers), and a malformed hunk header leaves the whole
state unchanged; consequently an addition line scanned after a file
header but before the next valid hunk header is recorded at the
carried-over cursor value. -/
theorem C2_header_keeps_cursor :
    (∀ (st : ParseState) (line : Str), strStartsWith line ("+++ b/".data) = true →
      parseDiffStep st line =
        ⟨assocSet st.fileChanges (line.drop 6) [], some (line.drop 6),
         st.currentLineNumber⟩) ∧
    (∀ (st : ParseState) (line : Str), strStartsWith line ("@@".data) = true →
      hunkNewStart line = none → parseDiffStep st line = st) := by
  constructor
  · intro st line h
    simp [parseDiffStep, h]
  · intro st line h hm
    obtain ⟨t, rfl⟩ := startsWith_two '@' '@' line (by simpa using h)
    have hne : strStartsWith ('@' :: '@' :: t) ("+++ b/".data) = false := by
      simp [strStartsWith, List.isPrefixOf]
    simp [parseDiffStep, hne, h, hm]

/-- Witness for claim C2 (amended) at a concrete state, file header
and malformed hunk header. -/
theorem C2_header_keeps_cursor_witness :
    parseDiffStep ⟨[], some ("a.js".data), 5⟩ ("+++ b/b.js".data) =
      ⟨assocSet [] ("b.js".data) [], some ("b.js".data), 5⟩ ∧
    parseDiffStep ⟨[], some ("a.js".data), 5⟩ ("@@ malformed @@".data) =
      ⟨[], some ("a.js".data), 5⟩ :=
  ⟨C2_header_keeps_cursor.1 ⟨[], some ("a.js".data), 5⟩ ("+++ b/b.js".data) (by decide),
   C2_header_keeps_cursor.2 ⟨[], some ("a.js".data), 5⟩ ("@@ malformed @@".data)
     (by decide) (by decide)⟩

/-- Claim C5. Within hunk scanning (a nonempty current file is set -
the empty current file from a bare header is falsy in the source and
scans nothing - and the line is neither a file header nor a
hunk-header line): a removal line
neither advances the cursor nor records anything and leaves the state
untouched; an addition line that does not begin with three pluses
records the current cursor value under the current file and then
advances the cursor; any other line advances the cursor without
recording; and in particular a removal immediately followed by an
addition after a hunk header with new-start 7 maps the addition to
line 7, not 8. -/
theorem C5_removal_and_addition_lines :
    (∀ (st : ParseState) (line f : Str), st.currentFile = some f →
      strStartsWith line ['-'] = true → parseDiffStep st line = st) ∧
    (∀ (st : ParseState) (line f : Str), st.currentFile = some f → f ≠ [] →
      strStartsWith line ['+'] = true → strStartsWith line ("+++".data) = false →
      parseDiffStep st line =
        ⟨assocSet st.fileChanges f
           (((assocGet st.fileChanges f).getD []) ++ [st.currentLineNumber]),
         some f, st.currentLineNumber + 1⟩) ∧
    (∀ (st : ParseState) (line f : Str), st.currentFile = some f → f ≠ [] →
      strStartsWith line ['+'] = false → strStartsWith line ['-'] = false →
      strStartsWith line ("@@".data) = false →
      parseDiffStep st line = ⟨st.fileChanges, some f, st.currentLineNumber + 1⟩) ∧
    assocGet (parseDiff ("+++ b/a.js\n@@ -1,2 +7,1 @@\n-removed\n+added".data))
      ("a.js".data) = some [7] := by
  refine ⟨?_, ?_, ?_, by decide⟩
  · intro st line f hcf h
    obtain ⟨t, rfl⟩ := startsWith_one '-' line h
    have h6 : strStartsWith ('-' :: t) ("+++ b/".data) = false := by
      simp [strStartsWith, List.isPrefixOf]
    have hat : strStartsWith ('-' :: t) ("@@".data) = false := by
      simp [strStartsWith, List.isPrefixOf]
    have hplus : strStartsWith ('-' :: t) ['+'] = false := by
      simp [strStartsWith, List.isPrefixOf]
    simp [parseDiffStep, h6, hat, hplus, hcf, h]
  · intro st line f hcf hf h h3
    have hfe : f.isEmpty = false := ne_nil_not_isEmpty f hf
    obtain ⟨t, rfl⟩ := startsWith_one '+' line h
    have h6 : strStartsWith ('+' :: t) ("+++ b/".data) = false := by
      cases hb : strStartsWith ('+' :: t) ("+++ b/".data) with
      | false => rfl
      | true =>
        have : strStartsWith ('+' :: t) ("+++".data) = true :=
          isPrefixOf_append_split ("+++".data) (" b/".data) ('+' :: t) hb
        rw [this] at h3
        exact absurd h3 (by simp)
    have hat : strStartsWith ('+' :: t) ("@@".data) = false := by
      simp [strStartsWith, List.isPrefixOf]
    simp [parseDiffStep, h6, hat, hcf, h, h3, hfe]
  · intro st line f hcf hf hplus hminus hat
    have hfe : f.isEmpty = false := ne_nil_not_isEmpty f hf
    have h6 : strStartsWith line ("+++ b/".data) = false := by
      cases hb : strStartsWith line ("+++ b/".data) with
      | false => rfl
      | true =>
        have : strStartsWith line ['+'] = true :=
          isPrefixOf_append_split ['+'] ("++ b/".data) line hb
        rw [this] at hplus
        exact absurd hplus (by simp)
    simp [parseDiffStep, h6, hat, hcf, hplus, hminus, hfe]

/-- Witness for claim C5 at a concrete state and concrete removal,
addition and context lines. -/
theorem C5_removal_and_addition_lines_witness :
    parseDiffStep ⟨[(("a.js".data), [3])], some ("a.js".data), 7⟩ ("-removed".data) =
      ⟨[(("a.js".data), [3])], some ("a.js".data), 7⟩ ∧
    parseDiffStep ⟨[(("a.js".data), [3])], some ("a.js".data), 7⟩ ("+added".data) =
      ⟨assocSet [(("a.js".data), [3])] ("a.js".data) ([3] ++ [7]),
       some ("a.js".data), 8⟩ ∧
    parseDiffStep ⟨[(("a.js".data), [3])], some ("a.js".data), 7⟩ (" context".data) =
      ⟨[(("a.js".data), [3])], some ("a.js".data), 8⟩ :=
  ⟨C5_removal_and_addition_lines.1 _ _ ("a.js".data) rfl (by decide),
   C5_removal_and_addition_lines.2.1 _ _ ("a.js".data) rfl (by decide) (by decide)
     (by decide),
   C5_removal_and_addition_lines.2.2.1 _ _ ("a.js".data) rfl (by decide) (by decide)
     (by decide) (by decide)⟩
theorem step_keys (st : ParseState) (line : Str) (hg : goodState st) :
    ((parseDiffStep st line).fileChanges.map Prod.fst)
      = headerKeysStep (st.fileChanges.map Prod.fst) line ∧
    goodState (parseDiffStep st line) := by
  by_cases h1 : strStartsWith line ("+++ b/".data) = true
  · have hstep : parseDiffStep st line =
        { st with currentFile := some (line.drop 6),
                  fileChanges := assocSet st.fileChanges (line.drop 6) [] } := by
      simp [parseDiffStep, h1]
    rw [hstep]
    by_cases hm : line.drop 6 ∈ st.fileChanges.map Prod.fst
    · refine ⟨?_, ?_, ?_⟩
      · simp [headerKeysStep, h1, hm, assocSet_keys_of_mem _ _ _ hm]
      · exact (assocSet_keys_of_mem _ _ _ hm) ▸ hg.1
      · intro f hf
        simp only [Option.some_inj] at hf
        subst hf
        exact mem_keys_assocSet _ _ _
    · refine ⟨?_, ?_, ?_⟩
      · simp [headerKeysStep, h1, hm, assocSet_keys_of_not_mem _ _ _ hm]
      · exact assocSet_nodup_keys _ _ _ hg.1
      · intro f hf
        simp only [Option.some_inj] at hf
        subst hf
        exact mem_keys_assocSet _ _ _
  · have hks : headerKeysStep (st.fileChanges.map Prod.fst) line
        = st.fileChanges.map Prod.fst := by
      simp [headerKeysStep, h1]
    rw [hks]
    by_cases h2 : strStartsWith line ("@@".data) = true
    · cases hm : hunkNewStart line with
      | some k =>
        have hstep : parseDiffStep st line = { st with currentLineNumber := k } := by
          simp [parseDiffStep, h1, h2, hm]
        rw [hstep]
        exact ⟨rfl, hg.1, hg.2⟩
      | none =>
        have hstep : parseDiffStep st line = st := by
          simp [parseDiffStep, h1, h2, hm]
        rw [hstep]
        exact ⟨rfl, hg⟩
    · cases hcf : st.currentFile with
      | none =>
        have hstep : parseDiffStep st line = st := by
          simp [parseDiffStep, h1, h2, hcf]
        rw [hstep]
        exact ⟨rfl, hg⟩
      | some f =>
        have hfmem : f ∈ st.fileChanges.map Prod.fst := hg.2 f hcf
        by_cases h3 : (!f.isEmpty && strStartsWith line ['+'] &&
            !strStartsWith line ("+++".data)) = true
        · have hstep : parseDiffStep st line =
              { st with
                  fileChanges := assocSet st.fileChanges f
                    (((assocGet st.fileChanges f).getD []) ++ [st.currentLineNumber]),
                  currentLineNumber := st.currentLineNumber + 1 } := by
            simp only [parseDiffStep, h1, h2, hcf, h3]
            simp
          rw [hstep]
          refine ⟨?_, ?_, ?_⟩
          · simp [assocSet_keys_of_mem _ _ _ hfmem]
          · exact (assocSet_keys_of_mem _ _ _ hfmem) ▸ hg.1
          · intro g hgf
            rw [hcf] at hgf
            have hfg : f = g := Option.some_inj.mp hgf
            subst hfg
            show f ∈ (assocSet st.fileChanges f
              (((assocGet st.fileChanges f).getD []) ++ [st.currentLineNumber])).map Prod.fst
            rw [assocSet_keys_of_mem _ _ _ hfmem]
            exact hfmem
        · by_cases h4 : (!f.isEmpty && !strStartsWith line ['-']) = true
          · have hstep : parseDiffStep st line =
                { st with currentLineNumber := st.currentLineNumber + 1 } := by
              simp [parseDiffStep, h1, h2, hcf, h3, h4]
            rw [hstep]
            exact ⟨rfl, hg.1, hg.2⟩
          · have hstep : parseDiffStep st line = st := by
              simp [parseDiffStep, h1, h2, hcf, h3, h4]
            rw [hstep]
            exact ⟨rfl, hg⟩

theorem scan_keys (L : List Str) : ∀ st : ParseState, goodState st →
    (((L.foldl parseDiffStep st).fileChanges.map Prod.fst)
      = L.foldl headerKeysStep (st.fileChanges.map Prod.fst)) ∧
    goodState (L.foldl parseDiffStep st) := by
  induction L with
  | nil => exact fun st hg => ⟨rfl, hg⟩
  | cons l L ih =>
    intro st hg
    have hstep := step_keys st l hg
    simp only [List.foldl_cons]
    have hrest := ih (parseDiffStep st l) hstep.2
    exact ⟨by rw [hrest.1, hstep.1], hrest.2⟩

theorem foldl_headerKeys (L : List Str) : ∀ init : List Str,
    L.foldl headerKeysStep init
      = (L.filterMap (fun l =>
          if strStartsWith l ("+++ b/".data) then some (l.drop 6) else none)).foldl
          (fun ks h => if h ∈ ks then ks else ks ++ [h]) init := by
  induction L with
  | nil => intro init; rfl
  | cons l L ih =>
    intro init
    by_cases h : strStartsWith l ("+++ b/".data) = true
    · simp [headerKeysStep, h, List.filterMap_cons, ih]
    · simp [headerKeysStep, h, List.filterMap_cons, ih]

/-- Counterexample for claim C4 as stated: for a diff whose second
hunk header rewinds the cursor, the recorded sequence for the file is
5 then 2, which is not strictly increasing. -/
theorem C4_strict_increase_cex :
    assocGet (parseDiff ("+++ b/a.js\n@@ -1,1 +5,1 @@\n+x\n@@ -1,1 +2,1 @@\n+y".data))
        ("a.js".data) = some [5, 2] ∧
    strictIncr [5, 2] = false :=
  ⟨by decide, by decide⟩

/-- Claim C4, amended. For every diff text the returned map has
duplicate-free keys whose order follows the first appearance of each
file path's header in the diff; the per-key sequences record the
cursor value of each scanned addition line, but for arbitrary
(malformed) diff text they need not be strictly increasing, since a
later hunk header may rewind the cursor. -/
theorem C4_map_shape (d : Str) :
    ((parseDiff d).map Prod.fst) = dedupFirst (headerPathsOf d) ∧
    ((parseDiff d).map Prod.fst).Nodup := by
  have hinit : goodState ⟨[], none, 0⟩ :=
    ⟨List.nodup_nil, fun f h => Option.noConfusion h⟩
  have h := scan_keys (splitLines d) ⟨[], none, 0⟩ hinit
  refine ⟨?_, h.2.1⟩
  have hpd : (parseDiff d).map Prod.fst
      = ((splitLines d).foldl parseDiffStep ⟨[], none, 0⟩).fileChanges.map Prod.fst := rfl
  rw [hpd, h.1, foldl_headerKeys]
  rfl
theorem addCommentToFile_false_fs (fs : FS) (p : Str) (n : Nat) (c t : Str)
    (h : (addCommentToFile fs p n c t).ok = false) :
    (addCommentToFile fs p n c t).fs = fs := by
  cases hr : assocGet fs.files p with
  | none => rw [addCommentToFile_read_none fs p n c t hr]
  | some content =>
    by_cases ha : (annotateContent content n c t).applied = true
    · by_cases hw : p ∈ fs.failWrites
      · rw [addCommentToFile_write_fail fs p n c t content hr ha hw]
      · rw [addCommentToFile_applied fs p n c t content hr ha hw] at h
        simp at h
    · rw [addCommentToFile_not_applied fs p n c t content hr (Bool.not_eq_true _ ▸ ha)]

theorem addComments_gate_eq (env : Env) (input : AddCommentsInput)
    (h : codeOkOf env = false) :
    addComments env input =
      ⟨⟨false, "Failed to extract branch code".data, none, none,
        (extractBranchCode env.branchName).error⟩, env.fs, [GitEvent.currentBranch]⟩ := by
  simp only [codeOkOf] at h
  simp [addComments, h]

theorem addComments_file_missing_line (env : Env) (input : AddCommentsInput)
    (h1 : codeOkOf env = true)
    (hsrc : input.source.getD DiffSource.staged = DiffSource.file)
    (hfp : filePathTruthyOf input = true)
    (hln : input.lineNumber.getD 0 = 0) :
    addComments env input =
      ⟨⟨false, "Line number required when specifying a file".data, none, none,
        some ("Missing lineNumber parameter".data)⟩, env.fs, [GitEvent.currentBranch]⟩ := by
  simp only [codeOkOf] at h1
  simp only [filePathTruthyOf] at hfp
  simp [addComments, h1, hsrc, hfp, hln]

theorem addComments_file_branch (env : Env) (input : AddCommentsInput)
    (h1 : codeOkOf env = true)
    (hsrc : input.source.getD DiffSource.staged = DiffSource.file)
    (hfp : filePathTruthyOf input = true)
    (hln : ¬ input.lineNumber.getD 0 = 0) :
    addComments env input =
      ⟨⟨(addCommentToFile env.fs ((input.filePath).getD [])
            (input.lineNumber.getD 0) input.comment
            (((extractBranchCode env.branchName).branchCode).getD [])).ok,
        (if (addCommentToFile env.fs ((input.filePath).getD [])
              (input.lineNumber.getD 0) input.comment
              (((extractBranchCode env.branchName).branchCode).getD [])).ok then
          ("Comment added to ".data) ++ ((input.filePath).getD []) ++
            (" at line ".data) ++ natDigits (input.lineNumber.getD 0)
         else
          "Failed to add comment (may already exist or invalid line number)".data),
        some (((extractBranchCode env.branchName).branchCode).getD []),
        some (if (addCommentToFile env.fs ((input.filePath).getD [])
              (input.lineNumber.getD 0) input.comment
              (((extractBranchCode env.branchName).branchCode).getD [])).ok then
            [(input.filePath).getD []]
          else []),
        none⟩,
       (addCommentToFile env.fs ((input.filePath).getD [])
          (input.lineNumber.getD 0) input.comment
          (((extractBranchCode env.branchName).branchCode).getD [])).fs,
       GitEvent.currentBranch ::
         (addCommentToFile env.fs ((input.filePath).getD [])
            (input.lineNumber.getD 0) input.comment
            (((extractBranchCode env.branchName).branchCode).getD [])).events⟩ := by
  simp only [codeOkOf] at h1
  simp only [filePathTruthyOf] at hfp
  simp [addComments, h1, hsrc, hfp, hln]

theorem addComments_diff_blank (env : Env) (input : AddCommentsInput)
    (h1 : codeOkOf env = true)
    (hsf : ¬(input.source.getD DiffSource.staged = DiffSource.file ∧
      filePathTruthyOf input = true))
    (hbl : (diffTextOf env input).all isJsWs = true) :
    addComments env input =
      ⟨⟨false, ("No ".data) ++ sourceName (input.source.getD DiffSource.staged) ++
          (" changes found".data),
        some (((extractBranchCode env.branchName).branchCode).getD []), none, none⟩,
       env.fs, [GitEvent.currentBranch, diffEventOf input]⟩ := by
  simp only [codeOkOf] at h1
  simp only [filePathTruthyOf] at hsf
  simp only [diffTextOf] at hbl
  simp [addComments, h1, hsf, hbl, diffEventOf]

theorem addComments_diff_batch (env : Env) (input : AddCommentsInput)
    (h1 : codeOkOf env = true)
    (hsf : ¬(input.source.getD DiffSource.staged = DiffSource.file ∧
      filePathTruthyOf input = true))
    (hbl : (diffTextOf env input).all isJsWs = false) :
    addComments env input =
      ⟨⟨!(batchOf env input).modified.isEmpty,
        (if !(batchOf env input).modified.isEmpty then
          ("Comments added to ".data) ++ natDigits (batchOf env input).modified.length ++
            (" file(s)".data)
         else
          "No comments were added (may already exist or no valid lines found)".data),
        some (((extractBranchCode env.branchName).branchCode).getD []),
        some (batchOf env input).modified, none⟩,
       (batchOf env input).fs,
       GitEvent.currentBranch :: diffEventOf input :: (batchOf env input).events⟩ := by
  simp only [codeOkOf] at h1
  simp only [filePathTruthyOf] at hsf
  simp only [diffTextOf] at hbl
  simp [addComments, h1, hsf, hbl, batchOf, diffTextOf, diffEventOf]
theorem branchCodeAt_pattern (cs code : Str) (h : branchCodeAt cs = some code) :
    matchesBranchPattern code = true := by
  unfold branchCodeAt at h
  split at h
  · rename_i u d1 d2 d3 rest
    split at h
    · rename_i hcond
      simp only [Option.some_inj] at h
      subst h
      simpa [matchesBranchPattern] using hcond
    · simp at h
  · simp at h

theorem findBranchCode_pattern (name code : Str) (h : findBranchCode name = some code) :
    matchesBranchPattern code = true := by
  induction name with
  | nil => simp [findBranchCode] at h
  | cons c rest ih =>
    unfold findBranchCode at h
    cases hb : branchCodeAt (c :: rest) with
    | some r =>
      rw [hb] at h
      simp only [Option.some_inj] at h
      exact branchCodeAt_pattern (c :: rest) code (by rw [hb, h])
    | none =>
      rw [hb] at h
      exact ih h

theorem pattern_ne_nil (code : Str) (h : matchesBranchPattern code = true) : code ≠ [] := by
  intro hnil
  subst hnil
  simp [matchesBranchPattern] at h

theorem upper_isTagChar (u : Char) (h : isUpperAZ u = true) : isTagChar u = true := by
  unfold isUpperAZ at h
  unfold isTagChar
  rw [h]
  simp

theorem digit_isTagChar (d : Char) (h : d.isDigit = true) : isTagChar d = true := by
  unfold isTagChar
  rw [h]
  simp

theorem matchesBranchPattern_props (code : Str) (h : matchesBranchPattern code = true) :
    code.length = 8 ∧ code.all isTagChar = true := by
  unfold matchesBranchPattern at h
  split at h
  · rename_i u d1 d2 d3
    simp only [Bool.and_eq_true] at h
    obtain ⟨⟨⟨hu, h1⟩, h2⟩, h3⟩ := h
    refine ⟨rfl, List.all_eq_true.mpr ?_⟩
    intro c hc
    simp only [List.mem_cons, List.not_mem_nil, or_false] at hc
    rcases hc with rfl | rfl | rfl | rfl | rfl | rfl | rfl | rfl
    · decide
    · decide
    · decide
    · exact upper_isTagChar _ hu
    · decide
    · exact digit_isTagChar _ h1
    · exact digit_isTagChar _ h2
    · exact digit_isTagChar _ h3
  · exact absurd h (by simp)

theorem extract_valid_code (name : Str) (h : (extractBranchCode name).isValid = true) :
    ∃ code, (extractBranchCode name).branchCode = some code ∧
      matchesBranchPattern code = true := by
  unfold extractBranchCode at h ⊢
  by_cases hw : name.all isJsWs = true
  · rw [if_pos hw] at h
    simp at h
  · rw [if_neg hw] at h ⊢
    cases hf : findBranchCode name with
    | none =>
      rw [hf] at h
      simp at h
    | some c =>
      exact ⟨c, rfl, findBranchCode_pattern name c hf⟩

theorem codeOkOf_of_valid (env : Env) (h : (extractBranchCode env.branchName).isValid = true) :
    codeOkOf env = true := by
  obtain ⟨code, hcode, hpat⟩ := extract_valid_code env.branchName h
  unfold codeOkOf
  rw [h, hcode]
  simp [ne_nil_not_isEmpty code (pattern_ne_nil code hpat)]
/-- Claim C7. Best-effort batch semantics: the modified list is an
in-order sublist of the map's keys; a failed per-file call (read
error, write error, invalid line or duplicate all return false) leaves
the file system untouched and contributes nothing while the remaining
entries are still processed against the same state; only the first
recorded line number of an entry is ever used; a successful per-file
call contributes exactly its file; and for every call of the entry
point the reported success equals the modified list being nonempty. -/
theorem C7_best_effort_batch :
    (∀ (fs : FS) (comment tag : Str) (entries : FileLineMap),
      List.Sublist (processEntries fs comment tag entries).modified
        (entries.map Prod.fst)) ∧
    (∀ (fs : FS) (comment tag p : Str) (n : Nat) (ns : List Nat) (rest : FileLineMap),
      (addCommentToFile fs p n comment tag).ok = false →
      (processEntries fs comment tag ((p, n :: ns) :: rest)).fs
          = (processEntries fs comment tag rest).fs ∧
      (processEntries fs comment tag ((p, n :: ns) :: rest)).modified
          = (processEntries fs comment tag rest).modified) ∧
    (∀ (fs : FS) (comment tag p : Str) (n : Nat) (ns : List Nat) (rest : FileLineMap),
      processEntries fs comment tag ((p, n :: ns) :: rest)
        = processEntries fs comment tag ((p, [n]) :: rest)) ∧
    (∀ (fs : FS) (comment tag p : Str) (n : Nat) (ns : List Nat) (rest : FileLineMap),
      (addCommentToFile fs p n comment tag).ok = true →
      (processEntries fs comment tag ((p, n :: ns) :: rest)).modified
        = p :: (processEntries (addCommentToFile fs p n comment tag).fs
            comment tag rest).modified) ∧
    (∀ (env : Env) (input : AddCommentsInput),
      (addComments env input).result.success
        = !((addComments env input).result.filesModified.getD []).isEmpty) := by
  refine ⟨?_, ?_, ?_, ?_, ?_⟩
  · intro fs comment tag entries
    induction entries generalizing fs with
    | nil => simp [processEntries]
    | cons e rest ih =>
      obtain ⟨p, lns⟩ := e
      cases lns with
      | nil =>
        simp only [processEntries, List.map_cons]
        exact (ih fs).cons p
      | cons n ns =>
        simp only [processEntries, List.map_cons]
        cases hok : (addCommentToFile fs p n comment tag).ok with
        | false => simpa [hok] using (ih _).cons p
        | true => simpa [hok] using (ih _).cons₂ p
  · intro fs comment tag p n ns rest h
    have hfs := addCommentToFile_false_fs fs p n comment tag h
    constructor
    · simp [processEntries, h, hfs]
    · simp [processEntries, h, hfs]
  · intro fs comment tag p n ns rest
    rfl
  · intro fs comment tag p n ns rest h
    simp [processEntries, h]
  · intro env input
    by_cases h1 : codeOkOf env = true
    · by_cases hsf : (input.source.getD DiffSource.staged = DiffSource.file ∧
          filePathTruthyOf input = true)
      · by_cases hln : input.lineNumber.getD 0 = 0
        · rw [addComments_file_missing_line env input h1 hsf.1 hsf.2 hln]
          rfl
        · rw [addComments_file_branch env input h1 hsf.1 hsf.2 hln]
          cases hok : (addCommentToFile env.fs ((input.filePath).getD [])
              (input.lineNumber.getD 0) input.comment
              (((extractBranchCode env.branchName).branchCode).getD [])).ok <;>
            simp [hok]
      · cases hbl : (diffTextOf env input).all isJsWs with
        | true =>
          rw [addComments_diff_blank env input h1 hsf hbl]
          rfl
        | false =>
          rw [addComments_diff_batch env input h1 hsf hbl]
          rfl
    · rw [addComments_gate_eq env input (Bool.not_eq_true _ ▸ h1)]
      rfl

/-- Witness for claim C7 at concrete states: a two-entry batch, a
read-error entry, a multi-line entry, a successful entry and a full
entry-point call. -/
theorem C7_best_effort_batch_witness :
    List.Sublist
      (processEntries ⟨[(("a.js".data), ("hello".data))], []⟩ ("c".data)
        ("FLYA-123".data) [(("a.js".data), [1]), (("b.js".data), [1])]).modified
      [("a.js".data), ("b.js".data)] ∧
    ((processEntries ⟨[(("a.js".data), ("hello".data))], []⟩ ("c".data) ("FLYA-123".data)
        ((("missing.js".data), 1 :: []) :: [(("a.js".data), [1])])).fs
      = (processEntries ⟨[(("a.js".data), ("hello".data))], []⟩ ("c".data) ("FLYA-123".data)
          [(("a.js".data), [1])]).fs ∧
     (processEntries ⟨[(("a.js".data), ("hello".data))], []⟩ ("c".data) ("FLYA-123".data)
        ((("missing.js".data), 1 :: []) :: [(("a.js".data), [1])])).modified
      = (processEntries ⟨[(("a.js".data), ("hello".data))], []⟩ ("c".data) ("FLYA-123".data)
          [(("a.js".data), [1])]).modified) ∧
    processEntries ⟨[(("a.js".data), ("hello".data))], []⟩ ("c".data) ("FLYA-123".data)
        ((("a.js".data), 1 :: [5, 9]) :: [])
      = processEntries ⟨[(("a.js".data), ("hello".data))], []⟩ ("c".data) ("FLYA-123".data)
          ((("a.js".data), [1]) :: []) ∧
    (processEntries ⟨[(("a.js".data), ("hello".data))], []⟩ ("c".data) ("FLYA-123".data)
        ((("a.js".data), 1 :: []) :: [])).modified
      = ("a.js".data) ::
        (processEntries (addCommentToFile ⟨[(("a.js".data), ("hello".data))], []⟩
            ("a.js".data) 1 ("c".data) ("FLYA-123".data)).fs ("c".data)
          ("FLYA-123".data) []).modified ∧
    (addComments ⟨("FLYA-123".data), ("".data), ("".data),
        ⟨[(("a.js".data), ("hello".data))], []⟩⟩
      ⟨("c".data), none, none, none⟩).result.success
      = !((addComments ⟨("FLYA-123".data), ("".data), ("".data),
          ⟨[(("a.js".data), ("hello".data))], []⟩⟩
        ⟨("c".data), none, none, none⟩).result.filesModified.getD []).isEmpty :=
  ⟨C7_best_effort_batch.1 ⟨[(("a.js".data), ("hello".data))], []⟩ ("c".data)
      ("FLYA-123".data) [(("a.js".data), [1]), (("b.js".data), [1])],
   C7_best_effort_batch.2.1 ⟨[(("a.js".data), ("hello".data))], []⟩ ("c".data)
      ("FLYA-123".data) ("missing.js".data) 1 [] [(("a.js".data), [1])] (by decide),
   C7_best_effort_batch.2.2.1 ⟨[(("a.js".data), ("hello".data))], []⟩ ("c".data)
      ("FLYA-123".data) ("a.js".data) 1 [5, 9] [],
   C7_best_effort_batch.2.2.2.1 ⟨[(("a.js".data), ("hello".data))], []⟩ ("c".data)
      ("FLYA-123".data) ("a.js".data) 1 [] [] (by decide),
   C7_best_effort_batch.2.2.2.2 ⟨("FLYA-123".data), ("".data), ("".data),
      ⟨[(("a.js".data), ("hello".data))], []⟩⟩ ⟨("c".data), none, none, none⟩⟩

/-- Counterexample for claim C3 as stated: with source file and an
absent filePath the call does not return a failure; it falls through
to the unstaged-diff path, obtains and parses the unstaged diff,
modifies the file named there and reports success. -/
theorem C3_missing_filePath_cex :
    addComments
        ⟨("FLYA-123".data), ("".data), ("+++ b/a.js\n@@ -1,1 +1,1 @@\n+x".data),
          ⟨[(("a.js".data), ("hello".data))], []⟩⟩
        ⟨("c".data), some DiffSource.file, none, none⟩ =
      ⟨⟨true, "Comments added to 1 file(s)".data, some ("FLYA-123".data),
        some [("a.js".data)], none⟩,
       ⟨[(("a.js".data), ("// FLYA-123: c\nhello".data))], []⟩,
       [GitEvent.currentBranch, GitEvent.unstagedDiff,
        GitEvent.fileRead ("a.js".data), GitEvent.fileWrite ("a.js".data)]⟩ := by
  decide

/-- Claim C3, amended. When source is file and a nonempty filePath is
supplied, lineNumber is required: an absent (or zero, which the falsy
check conflates with absent) lineNumber yields a failure result
without fetching any diff and without touching the file system; but
when filePath is absent or empty, the file branch is skipped and the
call falls through to the unstaged-diff path. -/
theorem C3_file_requires_lineNumber :
    (∀ (env : Env) (input : AddCommentsInput) (p : Str),
      (extractBranchCode env.branchName).isValid = true →
      input.source = some DiffSource.file →
      input.filePath = some p → p ≠ [] →
      input.lineNumber.getD 0 = 0 →
      addComments env input =
        ⟨⟨false, "Line number required when specifying a file".data, none, none,
          some ("Missing lineNumber parameter".data)⟩, env.fs, [GitEvent.currentBranch]⟩) ∧
    (∀ (env : Env) (input : AddCommentsInput),
      (extractBranchCode env.branchName).isValid = true →
      input.source = some DiffSource.file →
      (input.filePath = none ∨ input.filePath = some []) →
      GitEvent.unstagedDiff ∈ (addComments env input).events) := by
  constructor
  · intro env input p hv hsrc hfp hpne hln
    have h1 := codeOkOf_of_valid env hv
    have hsrc2 : input.source.getD DiffSource.staged = DiffSource.file := by
      rw [hsrc]
      rfl
    have hfp2 : filePathTruthyOf input = true := by
      unfold filePathTruthyOf
      rw [hfp]
      simp [ne_nil_not_isEmpty p hpne]
    exact addComments_file_missing_line env input h1 hsrc2 hfp2 hln
  · intro env input hv hsrc hfp
    have h1 := codeOkOf_of_valid env hv
    have hsrc2 : input.source.getD DiffSource.staged = DiffSource.file := by
      rw [hsrc]
      rfl
    have hfp2 : filePathTruthyOf input = false := by
      rcases hfp with hfp | hfp <;> simp [filePathTruthyOf, hfp]
    have hsf : ¬(input.source.getD DiffSource.staged = DiffSource.file ∧
        filePathTruthyOf input = true) := by
      intro hc
      rw [hfp2] at hc
      exact Bool.false_ne_true hc.2
    have hde : diffEventOf input = GitEvent.unstagedDiff := by
      unfold diffEventOf
      rw [hsrc2]
      rfl
    cases hbl : (diffTextOf env input).all isJsWs with
    | true =>
      rw [addComments_diff_blank env input h1 hsf hbl]
      simp [hde]
    | false =>
      rw [addComments_diff_batch env input h1 hsf hbl]
      simp [hde]

/-- Witness for claim C3 (amended) at concrete environments and
inputs. -/
theorem C3_file_requires_lineNumber_witness :
    addComments
        ⟨("FLYA-123".data), ("".data), ("".data),
          ⟨[(("a.js".data), ("hello".data))], []⟩⟩
        ⟨("c".data), some DiffSource.file, some ("a.js".data), none⟩ =
      ⟨⟨false, "Line number required when specifying a file".data, none, none,
        some ("Missing lineNumber parameter".data)⟩,
       ⟨[(("a.js".data), ("hello".data))], []⟩, [GitEvent.currentBranch]⟩ ∧
    GitEvent.unstagedDiff ∈
      (addComments
        ⟨("FLYA-123".data), ("".data), ("".data),
          ⟨[(("a.js".data), ("hello".data))], []⟩⟩
        ⟨("c".data), some DiffSource.file, none, none⟩).events :=
  ⟨C3_file_requires_lineNumber.1
      ⟨("FLYA-123".data), ("".data), ("".data), ⟨[(("a.js".data), ("hello".data))], []⟩⟩
      ⟨("c".data), some DiffSource.file, some ("a.js".data), none⟩ ("a.js".data)
      (by decide) rfl rfl (by decide) (by decide),
   C3_file_requires_lineNumber.2
      ⟨("FLYA-123".data), ("".data), ("".data), ⟨[(("a.js".data), ("hello".data))], []⟩⟩
      ⟨("c".data), some DiffSource.file, none, none⟩
      (by decide) rfl (Or.inl rfl)⟩

/-- Claim C10. Branch-code gate and tag shape: when the extraction of
a branch code from the current branch name fails, addComments returns
the failure result with message Failed to extract branch code after
only the branch lookup, with the file system untouched and no diff,
read or write event; every successfully extracted code matches the
branch-code pattern, has length eight and consists of alphanumeric or
hyphen characters only (hence no regex metacharacters); extraction
fails on the empty branch name and whenever no matching substring
exists. -/
theorem C10_branch_gate :
    (∀ (env : Env) (input : AddCommentsInput),
      (extractBranchCode env.branchName).isValid = false →
      addComments env input =
        ⟨⟨false, "Failed to extract branch code".data, none, none,
          (extractBranchCode env.branchName).error⟩, env.fs, [GitEvent.currentBranch]⟩) ∧
    (∀ name code : Str, (extractBranchCode name).branchCode = some code →
      matchesBranchPattern code = true ∧ code.length = 8 ∧
        code.all isTagChar = true) ∧
    ((extractBranchCode []).isValid = false) ∧
    (∀ name : Str, findBranchCode name = none →
      (extractBranchCode name).isValid = false) := by
  refine ⟨?_, ?_, by decide, ?_⟩
  · intro env input h
    apply addComments_gate_eq
    unfold codeOkOf
    rw [h]
    rfl
  · intro name code h
    unfold extractBranchCode at h
    by_cases hw : name.all isJsWs = true
    · rw [if_pos hw] at h
      simp at h
    · rw [if_neg hw] at h
      cases hf : findBranchCode name with
      | none =>
        rw [hf] at h
        simp at h
      | some c =>
        rw [hf] at h
        simp only [Option.some_inj] at h
        have hpat := findBranchCode_pattern name c hf
        rw [← h]
        exact ⟨hpat, matchesBranchPattern_props c hpat⟩
  · intro name h
    unfold extractBranchCode
    by_cases hw : name.all isJsWs = true
    · rw [if_pos hw]
    · rw [if_neg hw, h]

/-- Witness for claim C10 at a concrete invalid branch, a concrete
extracted code and a concrete code-free branch name. -/
theorem C10_branch_gate_witness :
    addComments
        ⟨("main".data), ("".data), ("".data), ⟨[(("a.js".data), ("hello".data))], []⟩⟩
        ⟨("c".data), none, none, none⟩ =
      ⟨⟨false, "Failed to extract branch code".data, none, none,
        (extractBranchCode ("main".data)).error⟩,
       ⟨[(("a.js".data), ("hello".data))], []⟩, [GitEvent.currentBranch]⟩ ∧
    (matchesBranchPattern ("FLYF-228".data) = true ∧
      ("FLYF-228".data).length = 8 ∧ ("FLYF-228".data).all isTagChar = true) ∧
    (extractBranchCode ("main".data)).isValid = false :=
  ⟨C10_branch_gate.1
      ⟨("main".data), ("".data), ("".data), ⟨[(("a.js".data), ("hello".data))], []⟩⟩
      ⟨("c".data), none, none, none⟩ (by decide),
   C10_branch_gate.2.1 ("feature/FLYF-228-test".data) ("FLYF-228".data) (by decide),
   C10_branch_gate.2.2.2 ("main".data) (by decide)⟩
end McpGit
